import Mathlib

/-!
Verification of the notification relay in
`jupyterlab_notifications_extension` (shallow embedding of
`routes.py` and `cli.py`).

The server keeps a process-wide store
`_notification_store : Dict[str, List[Dict]]` (a `defaultdict(list)`),
mapping a recipient identity to the ordered list of pending
notification dictionaries.  `NotificationIngestHandler.post` decodes a
JSON body, validates it, builds a notification dictionary and appends
it to the targeted partitions; `NotificationFetchHandler.get` returns
the caller's partition followed by the reserved `__broadcast__`
partition and clears both.

JSON values are modelled by the mutual inductive `Json`/`JsonList`/
`JsonFields`; Python dictionaries with string keys are `JsonFields`
(association lists — all dictionaries produced by `json.loads` and by
the handlers are duplicate-free), and the store is an association list
from keys to lists of records, mirroring a Python dict's insertion
order.  Numbers are modelled as integers (every number the handlers
manipulate is one).  Each handler runs at a single instant `now`
standing for `int(time.time() * 1000)`.
-/

mutual
/-- A JSON value, as produced by Python's `json.loads`. -/
inductive Json where
  | null
  | bool (b : Bool)
  | num (n : Int)
  | str (s : String)
  | arr (elems : JsonList)
  | obj (fields : JsonFields)
deriving DecidableEq

/-- The elements of a JSON array. -/
inductive JsonList where
  | nil
  | cons (hd : Json) (tl : JsonList)
deriving DecidableEq

/-- The fields of a JSON object: a Python dict with string keys, in
insertion order. -/
inductive JsonFields where
  | nil
  | cons (k : String) (v : Json) (tl : JsonFields)
deriving DecidableEq
end

/-- Build a `JsonList` from a Lean list. -/
def JsonList.ofList : List Json → JsonList
  | [] => JsonList.nil
  | x :: xs => JsonList.cons x (JsonList.ofList xs)

/-- View a `JsonList` as a Lean list. -/
def JsonList.toList : JsonList → List Json
  | JsonList.nil => []
  | JsonList.cons x xs => x :: JsonList.toList xs

/-- Build a `JsonFields` from a Lean association list. -/
def JsonFields.ofList : List (String × Json) → JsonFields
  | [] => JsonFields.nil
  | (k, v) :: rest => JsonFields.cons k v (JsonFields.ofList rest)

/-- Python `d[k]` / `d.get(k)` on a dict: the value under key `k`. -/
def jget : JsonFields → String → Option Json
  | JsonFields.nil, _ => none
  | JsonFields.cons k v rest, key => if k = key then some v else jget rest key

/-- Python `k in d` on a dict: key membership. -/
def hasKey : JsonFields → String → Bool
  | JsonFields.nil, _ => false
  | JsonFields.cons k _ rest, key => k == key || hasKey rest key

/-- The keys of a JSON object, in order (Python `d.keys()`). -/
def JsonFields.keys : JsonFields → List String
  | JsonFields.nil => []
  | JsonFields.cons k _ rest => k :: JsonFields.keys rest

/-- `matchesAt needle hay`: `needle` is a prefix of `hay`. -/
def matchesAt : List Char → List Char → Bool
  | [], _ => true
  | _ :: _, [] => false
  | a :: as, b :: bs => a == b && matchesAt as bs

/-- `containsSub needle hay`: `needle` occurs as a contiguous
substring of `hay` (Python `needle in hay` on strings, for a nonempty
needle). -/
def containsSub (needle : List Char) : List Char → Bool
  | [] => needle.isEmpty
  | c :: rest => matchesAt needle (c :: rest) || containsSub needle rest

/-- Python `needle in payload` where `payload` is an arbitrary value
decoded from JSON: key membership on dicts, element membership on
lists, substring test on strings; on a number, boolean or `None` the
`in` operator raises `TypeError`. -/
def pyContains (needle : String) : Json → Except String Bool
  | Json.str s => Except.ok (containsSub needle.toList s.toList)
  | Json.arr elems => Except.ok (elems.toList.any (fun x => decide (x = Json.str needle)))
  | Json.obj fields => Except.ok (hasKey fields needle)
  | _ => Except.error "TypeError: argument of type is not iterable"

/-- Python iteration `for x in v` over a decoded JSON value: a list
yields its elements, a string its characters, a dict its keys; a
number, boolean or `None` raises `TypeError`. -/
def pyIter : Json → Except String (List Json)
  | Json.arr elems => Except.ok elems.toList
  | Json.str s => Except.ok (s.toList.map (fun c => Json.str (String.mk [c])))
  | Json.obj fields => Except.ok (fields.keys.map Json.str)
  | _ => Except.error "TypeError: object is not iterable"

/-- Python truthiness of a decoded JSON value (`if v:`). -/
def pyTruthy : Json → Bool
  | Json.null => false
  | Json.bool b => b
  | Json.num n => n != 0
  | Json.str s => !s.isEmpty
  | Json.arr elems => !(elems.toList.isEmpty)
  | Json.obj fields => !(fields.keys.isEmpty)

/-- Whether a decoded JSON value is hashable in Python (usable as a
dict key): lists and dicts are not. -/
def hashable : Json → Bool
  | Json.arr _ => false
  | Json.obj _ => false
  | _ => true

/-- A stored notification: the Python dict built by the ingest
handler. -/
abbrev Rec := JsonFields

/-- The process-wide `_notification_store`: a dict from recipient
identity to the ordered list of pending notification records.  Keys
are arbitrary hashable values (the handlers use strings, but
`target_users` elements are stored as given). -/
abbrev Store := List (Json × List Rec)

/-- The reserved broadcast identity `'__broadcast__'`. -/
def bcKey : Json := Json.str "__broadcast__"

/-- Python `store.get(k, d)` (no entry is created). -/
def dictGetD (s : Store) (k : Json) (d : List Rec) : List Rec :=
  match s with
  | [] => d
  | (k1, v) :: rest => if k1 = k then v else dictGetD rest k d

/-- Python `k in store`. -/
def dictMem : Store → Json → Bool
  | [], _ => false
  | (k1, _) :: rest, k => k1 == k || dictMem rest k

/-- Python `store[k] = v`: replace the value under `k`, or add the
entry at the end if the key is new. -/
def dictSet (s : Store) (k : Json) (v : List Rec) : Store :=
  match s with
  | [] => [(k, v)]
  | (k1, v1) :: rest => if k1 = k then (k, v) :: rest else (k1, v1) :: dictSet rest k v

/-- Python `del store[k]`. -/
def dictDel (s : Store) (k : Json) : Store :=
  match s with
  | [] => []
  | (k1, v1) :: rest => if k1 = k then rest else (k1, v1) :: dictDel rest k

/-- `defaultdict(list)` append: `store[k].append(r)` appends to the
existing partition, or creates the entry `(k, [r])` at the end. -/
def dictAppend (s : Store) (k : Json) (r : Rec) : Store :=
  match s with
  | [] => [(k, [r])]
  | (k1, v1) :: rest =>
      if k1 = k then (k1, v1 ++ [r]) :: rest else (k1, v1) :: dictAppend rest k r

/-- The store's keys are pairwise distinct (true of every Python
dict; association-list states violating it are unreachable). -/
def keysNodup : Store → Bool
  | [] => true
  | (k, _) :: rest => !(dictMem rest k) && keysNodup rest

/-- The generated notification id
`f"notif_{int(time.time() * 1000)}_{len(_notification_store)}"`. -/
def notifId (now : Int) (storeLen : Nat) : String :=
  "notif_" ++ toString now ++ "_" ++ toString storeLen

/-- The notification dict built by `NotificationIngestHandler.post`
from a decoded JSON object payload (routes.py lines 48-55): `message`
is required, `type` defaults to `"info"`, `autoClose` to `5000`,
`actions` to `[]`; `createdAt` is the current epoch-millisecond time.
No other payload field is copied into the record. -/
def mkNotification (fields : JsonFields) (now : Int) (storeLen : Nat) : Rec :=
  JsonFields.ofList
    [("id", Json.str (notifId now storeLen)),
     ("message", (jget fields "message").getD Json.null),
     ("type", (jget fields "type").getD (Json.str "info")),
     ("autoClose", (jget fields "autoClose").getD (Json.num 5000)),
     ("createdAt", Json.num now),
     ("actions", (jget fields "actions").getD (Json.arr JsonList.nil))]

/-- An HTTP response: status code and JSON body. -/
structure Response where
  status : Nat
  body : Json
deriving DecidableEq

/-- The loop `for username in target_users:
_notification_store[username].append(notification.copy())`.  Stops
with a `TypeError` at the first unhashable element, keeping the
appends already performed (Python does not roll back). -/
def appendUsersLoop (s : Store) (users : List Json) (r : Rec) : Store × Option String :=
  match users with
  | [] => (s, none)
  | u :: rest =>
      if hashable u then appendUsersLoop (dictAppend s u r) rest r
      else (s, some "TypeError: unhashable type")

/-- `NotificationIngestHandler.post` (routes.py lines 37-85) on a
request body: `none` models a body `json.loads` rejects.  Returns the
store after the request and the response.  A non-object JSON body
reaches `payload['message']` only when the `in` test succeeded, and
then raises (`TypeError` on a string or list), handled by the
catch-all `except Exception` as a 500. -/
def ingest (s : Store) (body : Option Json) (now : Int) : Store × Response :=
  match body with
  | none =>
      (s, ⟨400, Json.obj (JsonFields.ofList [("error", Json.str "Invalid JSON payload")])⟩)
  | some payload =>
    match pyContains "message" payload with
    | Except.error e => (s, ⟨500, Json.obj (JsonFields.ofList [("error", Json.str e)])⟩)
    | Except.ok false =>
        (s, ⟨400, Json.obj (JsonFields.ofList [("error", Json.str "Missing \x27message\x27 field")])⟩)
    | Except.ok true =>
      match payload with
      | Json.obj fields =>
        let notification := mkNotification fields now s.length
        let targetUsers := (jget fields "target_users").getD Json.null
        let okResponse : Response :=
          ⟨200, Json.obj (JsonFields.ofList
            [("success", Json.bool true),
             ("notification_id", Json.str (notifId now s.length)),
             ("target_users", if pyTruthy targetUsers then targetUsers else Json.str "all")])⟩
        if targetUsers = Json.null then
          let s1 := s.map (fun e => (e.1, e.2 ++ [notification]))
          let s2 := if s1.isEmpty then dictAppend s1 bcKey notification else s1
          (s2, okResponse)
        else
          match pyIter targetUsers with
          | Except.error e =>
              (s, ⟨500, Json.obj (JsonFields.ofList [("error", Json.str e)])⟩)
          | Except.ok users =>
            match appendUsersLoop s users notification with
            | (s1, none) => (s1, okResponse)
            | (s1, some e) =>
                (s1, ⟨500, Json.obj (JsonFields.ofList [("error", Json.str e)])⟩)
      | _ =>
          (s, ⟨500, Json.obj (JsonFields.ofList
            [("error", Json.str "TypeError: indices must be integers")])⟩)

/-- `NotificationFetchHandler.get` (routes.py lines 95-112) for the
authenticated user `username`: returns the store after the request and
the delivered list — the caller's partition followed by the
`__broadcast__` partition; the caller's partition is then set to `[]`
and the broadcast entry deleted. -/
def fetch (s : Store) (username : String) : Store × List Rec :=
  let notifications := dictGetD s (Json.str username) []
  let broadcastNotifications := dictGetD s bcKey []
  let allNotifications := notifications ++ broadcastNotifications
  let s1 := dictSet s (Json.str username) []
  let s2 := dictDel s1 bcKey
  (s2, allNotifications)

/-- `cli.send_notification_local` (cli.py lines 31-65).  It builds the
notification dict (including a `data` field), then runs
`_notification_store.append(notification)` — but the
`_notification_store` it imports from `routes.py` is a
`defaultdict(list)` (a dict), which has no `append` method, so the
call raises `AttributeError` before storing anything and never reaches
the `return`. -/
def send_notification_local (store : Store) (message : String)
    (notification_type : String) (auto_close : Json) (actions : Option (List Json))
    (data : Option Json) (now : Int) : Except String (Store × Json) :=
  let notification : Rec := JsonFields.ofList
    [("id", Json.str (notifId now store.length)),
     ("message", Json.str message),
     ("type", Json.str notification_type),
     ("autoClose", auto_close),
     ("createdAt", Json.num now),
     ("actions", Json.arr (JsonList.ofList (actions.getD []))),
     ("data", data.getD Json.null)]
  have _ := notification
  Except.error "AttributeError: \x27collections.defaultdict\x27 object has no attribute \x27append\x27"

/-- One client-visible operation on the relay: an ingest request (with
its decoded body and request time) or a fetch by an authenticated
user. -/
inductive Op where
  | ingest (body : Option Json) (now : Int)
  | fetch (user : String)
deriving DecidableEq

/-- Run a sequence of operations from a store, collecting the list
delivered by each fetch, in order. -/
def runTrace : Store → List Op → Store × List (List Rec)
  | s, [] => (s, [])
  | s, Op.ingest b n :: rest => runTrace (ingest s b n).1 rest
  | s, Op.fetch u :: rest =>
      let s1 := (fetch s u).1
      let result := (runTrace s1 rest)
      (result.1, (fetch s u).2 :: result.2)

/-- Multiplicity of a record in a list. -/
def countRec (r : Rec) : List Rec → Nat
  | [] => 0
  | x :: rest => (if x = r then 1 else 0) + countRec r rest

/-- Multiplicity of a record in the whole store (summed over all
partitions). -/
def countStore (r : Rec) : Store → Nat
  | [] => 0
  | e :: rest => countRec r e.2 + countStore r rest

/-- Total multiplicity of a record over a list of fetch results. -/
def sumCounts (r : Rec) : List (List Rec) → Nat
  | [] => 0
  | l :: rest => countRec r l + sumCounts r rest

/-- The longest hashable prefix of a target-user list: the elements
the ingest loop processes before a `TypeError` stops it. -/
def takeHashable : List Json → List Json
  | [] => []
  | u :: rest => if hashable u then u :: takeHashable rest else []

/-- Specification apparatus: the multiset of record copies an ingest
request appends to the store (one copy per partition written), derived
from the branch structure of `ingest`. -/
def ingestAppended (s : Store) (body : Option Json) (now : Int) : List Rec :=
  match body with
  | none => []
  | some payload =>
    match pyContains "message" payload with
    | Except.error _ => []
    | Except.ok false => []
    | Except.ok true =>
      match payload with
      | Json.obj fields =>
        let notification := mkNotification fields now s.length
        let targetUsers := (jget fields "target_users").getD Json.null
        if targetUsers = Json.null then
          if s.isEmpty then [notification] else List.replicate s.length notification
        else
          match pyIter targetUsers with
          | Except.error _ => []
          | Except.ok users => List.replicate (takeHashable users).length notification
      | _ => []

/-- Total multiplicity of a record among the copies appended by the
ingests of a trace run from `s`. -/
def totalIngested (r : Rec) : Store → List Op → Nat
  | _, [] => 0
  | s, Op.ingest b n :: rest =>
      countRec r (ingestAppended s b n) + totalIngested r (ingest s b n).1 rest
  | s, Op.fetch u :: rest => totalIngested r (fetch s u).1 rest

/-- No fetch in the trace is performed by a user literally named
`__broadcast__` (the reserved identity is not a real user). -/
def noReservedFetch (t : List Op) : Bool :=
  t.all (fun op => match op with
    | Op.fetch u => u != "__broadcast__"
    | _ => true)

theorem countRec_append (r : Rec) (a b : List Rec) :
    countRec r (a ++ b) = countRec r a + countRec r b := by
  induction a with
  | nil => simp [countRec]
  | cons x rest ih => simp [countRec, ih]; omega

theorem countRec_replicate (r x : Rec) (n : Nat) :
    countRec r (List.replicate n x) = if x = r then n else 0 := by
  induction n with
  | zero => simp [countRec]
  | succ m ih => simp [List.replicate, countRec, ih]; split <;> omega

theorem countStore_set_empty (r : Rec) (s : Store) (k : Json) :
    countStore r (dictSet s k []) + countRec r (dictGetD s k []) = countStore r s := by
  induction s with
  | nil => simp [dictSet, dictGetD, countStore, countRec]
  | cons e rest ih =>
    obtain ⟨k1, v1⟩ := e
    by_cases hk : k1 = k
    · simp [dictSet, dictGetD, hk, countStore, countRec]; omega
    · simp [dictSet, dictGetD, hk, countStore]; omega

theorem countStore_del (r : Rec) (s : Store) (k : Json) :
    countStore r (dictDel s k) + countRec r (dictGetD s k []) = countStore r s := by
  induction s with
  | nil => simp [dictDel, dictGetD, countStore, countRec]
  | cons e rest ih =>
    obtain ⟨k1, v1⟩ := e
    by_cases hk : k1 = k
    · simp [dictDel, dictGetD, hk, countStore]; omega
    · simp [dictDel, dictGetD, hk, countStore]; omega

theorem dictGetD_set_ne (s : Store) (k k2 : Json) (v d : List Rec) (h : k ≠ k2) :
    dictGetD (dictSet s k v) k2 d = dictGetD s k2 d := by
  induction s with
  | nil => simp [dictSet, dictGetD, h]
  | cons e rest ih =>
    obtain ⟨k1, v1⟩ := e
    by_cases hk : k1 = k
    · simp [dictSet, dictGetD, hk, h]
    · simp [dictSet, dictGetD, hk, ih]

theorem fetch_count (r : Rec) (s : Store) (u : String) (h : u ≠ "__broadcast__") :
    countRec r (fetch s u).2 + countStore r (fetch s u).1 = countStore r s := by
  have hne : Json.str u ≠ bcKey := by simp [bcKey, h]
  have h1 := countStore_set_empty r s (Json.str u)
  have h2 := countStore_del r (dictSet s (Json.str u) []) bcKey
  rw [dictGetD_set_ne s (Json.str u) bcKey [] [] hne] at h2
  simp only [fetch, countRec_append]
  omega

theorem countStore_map_append (r n : Rec) (s : Store) :
    countStore r (s.map (fun e => (e.1, e.2 ++ [n])))
      = countStore r s + countRec r (List.replicate s.length n) := by
  induction s with
  | nil => simp [countStore, countRec]
  | cons e rest ih =>
    simp [countStore, countRec_append, ih, List.replicate, countRec]
    omega

theorem countStore_dictAppend (r n : Rec) (s : Store) (k : Json) :
    countStore r (dictAppend s k n) = countStore r s + (if n = r then 1 else 0) := by
  induction s with
  | nil => simp [dictAppend, countStore, countRec]
  | cons e rest ih =>
    obtain ⟨k1, v1⟩ := e
    by_cases hk : k1 = k
    · simp [dictAppend, hk, countStore, countRec_append, countRec]; omega
    · simp [dictAppend, hk, countStore, ih]; omega

theorem countStore_loop (r n : Rec) (users : List Json) :
    ∀ s : Store, countStore r (appendUsersLoop s users n).1
      = countStore r s + countRec r (List.replicate (takeHashable users).length n) := by
  induction users with
  | nil => intro s; simp [appendUsersLoop, takeHashable, countRec]
  | cons u rest ih =>
    intro s
    by_cases hu : hashable u = true
    · simp [appendUsersLoop, takeHashable, hu, ih, countStore_dictAppend,
        List.replicate, countRec]
      omega
    · simp [appendUsersLoop, takeHashable, hu, countRec]

theorem ingest_count (r : Rec) (s : Store) (b : Option Json) (now : Int) :
    countStore r (ingest s b now).1 = countStore r s + countRec r (ingestAppended s b now) := by
  cases b with
  | none => simp [ingest, ingestAppended, countRec]
  | some payload =>
    cases hpc : pyContains "message" payload with
    | error e => simp [ingest, ingestAppended, hpc, countRec]
    | ok ok =>
      cases ok with
      | false => simp [ingest, ingestAppended, hpc, countRec]
      | true =>
        cases payload with
        | obj fields =>
          simp only [ingest, ingestAppended, hpc]
          by_cases ht : (jget fields "target_users").getD Json.null = Json.null
          · simp only [ht, if_pos rfl, if_true]
            cases s with
            | nil =>
              simp [dictAppend, countStore, countRec, List.isEmpty]
            | cons e rest =>
              have hmap := countStore_map_append r
                (mkNotification fields now (e :: rest).length) (e :: rest)
              simp only [List.length_cons] at hmap
              simp only [List.map_cons] at hmap
              simp only [List.isEmpty, List.map_cons, List.length_cons,
                Bool.false_eq_true, if_false]
              exact hmap
          · simp only [ht, if_neg ht, if_false]
            cases hit : pyIter ((jget fields "target_users").getD Json.null) with
            | error e => simp [hit, countRec]
            | ok users =>
              simp only [hit]
              have := countStore_loop r (mkNotification fields now s.length) users s
              cases hal : appendUsersLoop s users (mkNotification fields now s.length) with
              | mk s1 o =>
                rw [hal] at this
                cases o <;> simp [this, countRec_replicate]
        | null => simp [pyContains] at hpc
        | bool b2 => simp [pyContains] at hpc
        | num n2 => simp [pyContains] at hpc
        | str s2 => simp [ingest, ingestAppended, hpc, countRec]
        | arr elems => simp [ingest, ingestAppended, hpc, countRec]

theorem trace_conservation (t : List Op) :
    ∀ s : Store, ∀ r : Rec, noReservedFetch t = true →
      sumCounts r (runTrace s t).2 + countStore r (runTrace s t).1
        = countStore r s + totalIngested r s t := by
  induction t with
  | nil => intro s r _; simp [runTrace, sumCounts, totalIngested]
  | cons op rest ih =>
    intro s r h
    have hall : (fun op => match op with
        | Op.fetch u => u != "__broadcast__"
        | _ => true) op = true ∧ noReservedFetch rest = true := by
      simpa [noReservedFetch, List.all_cons] using h
    cases op with
    | ingest b n =>
      have := ih (ingest s b n).1 r hall.2
      have hc := ingest_count r s b n
      simp only [runTrace, totalIngested]
      omega
    | fetch u =>
      have hu : u ≠ "__broadcast__" := by
        have := hall.1
        simpa using this
      have := ih (fetch s u).1 r hall.2
      have hf := fetch_count r s u hu
      simp only [runTrace, totalIngested, sumCounts]
      omega

/-- Claim C1: over any sequence of ingest and fetch operations run from
the initially empty store (fetches being by real users, not the
reserved `__broadcast__` identity), delivery is conservative: for every
record value, the multiplicity delivered across all fetch results plus
the multiplicity still stored at the end equals the multiplicity the
ingests appended to the store.  Hence each stored record copy is
contained in the result of at most one fetch — once a fetch returns it,
no later fetch by any user returns that same stored copy again. -/
theorem record_in_at_most_one_fetch (t : List Op) (r : Rec)
    (h : noReservedFetch t = true) :
    sumCounts r (runTrace [] t).2 + countStore r (runTrace [] t).1
      = totalIngested r [] t := by
  have hc := trace_conservation t [] r h
  simpa [countStore] using hc

theorem record_in_at_most_one_fetch_witness :
    noReservedFetch
        [Op.ingest (some (Json.obj (JsonFields.ofList [("message", Json.str "hi")]))) 3,
         Op.fetch "alice", Op.fetch "bob"] = true
    ∧ sumCounts (mkNotification (JsonFields.ofList [("message", Json.str "hi")]) 3 0)
        (runTrace []
          [Op.ingest (some (Json.obj (JsonFields.ofList [("message", Json.str "hi")]))) 3,
           Op.fetch "alice", Op.fetch "bob"]).2
      + countStore (mkNotification (JsonFields.ofList [("message", Json.str "hi")]) 3 0)
        (runTrace []
          [Op.ingest (some (Json.obj (JsonFields.ofList [("message", Json.str "hi")]))) 3,
           Op.fetch "alice", Op.fetch "bob"]).1
      = totalIngested (mkNotification (JsonFields.ofList [("message", Json.str "hi")]) 3 0) []
          [Op.ingest (some (Json.obj (JsonFields.ofList [("message", Json.str "hi")]))) 3,
           Op.fetch "alice", Op.fetch "bob"] :=
  ⟨by decide,
   record_in_at_most_one_fetch
     [Op.ingest (some (Json.obj (JsonFields.ofList [("message", Json.str "hi")]))) 3,
      Op.fetch "alice", Op.fetch "bob"]
     (mkNotification (JsonFields.ofList [("message", Json.str "hi")]) 3 0) (by decide)⟩

theorem dictGetD_set_self (s : Store) (k : Json) (v d : List Rec) :
    dictGetD (dictSet s k v) k d = v := by
  induction s with
  | nil => simp [dictSet, dictGetD]
  | cons e rest ih =>
    obtain ⟨k1, v1⟩ := e
    by_cases hk : k1 = k
    · simp [dictSet, dictGetD, hk]
    · simp [dictSet, dictGetD, hk, ih]

theorem dictGetD_del_ne (s : Store) (k k2 : Json) (d : List Rec) (h : k ≠ k2) :
    dictGetD (dictDel s k) k2 d = dictGetD s k2 d := by
  induction s with
  | nil => simp [dictDel]
  | cons e rest ih =>
    obtain ⟨k1, v1⟩ := e
    by_cases hk : k1 = k
    · subst hk
      simp [dictDel, dictGetD, h]
    · simp [dictDel, dictGetD, hk, ih]

theorem dictMem_set (s : Store) (k k2 : Json) (v : List Rec) :
    dictMem (dictSet s k v) k2 = (k == k2 || dictMem s k2) := by
  induction s with
  | nil => simp [dictSet, dictMem]
  | cons e rest ih =>
    obtain ⟨k1, v1⟩ := e
    by_cases hk : k1 = k
    · subst hk
      simp [dictSet, dictMem]
    · simp only [dictSet, if_neg hk, dictMem, ih]
      cases hb : (k1 == k2) <;> cases hb2 : (k == k2) <;> simp
  

theorem keysNodup_set (s : Store) (k : Json) (v : List Rec) (h : keysNodup s = true) :
    keysNodup (dictSet s k v) = true := by
  induction s with
  | nil => simp [dictSet, keysNodup, dictMem]
  | cons e rest ih =>
    obtain ⟨k1, v1⟩ := e
    simp only [keysNodup, Bool.and_eq_true, Bool.not_eq_true'] at h
    by_cases hk : k1 = k
    · subst hk
      simp [dictSet, keysNodup, h.1, h.2]
    · simp only [dictSet, if_neg hk, keysNodup, Bool.and_eq_true, Bool.not_eq_true']
      refine ⟨?_, ih h.2⟩
      rw [dictMem_set]
      simp only [Bool.or_eq_false_iff]
      constructor
      · simp [beq_eq_false_iff_ne]
        exact fun he => hk he.symm
      · exact h.1

theorem dictMem_del_imp (s : Store) (k k2 : Json) (h : dictMem (dictDel s k) k2 = true) :
    dictMem s k2 = true := by
  induction s with
  | nil => simp [dictDel, dictMem] at h
  | cons e rest ih =>
    obtain ⟨k1, v1⟩ := e
    by_cases hk : k1 = k
    · simp only [dictDel, if_pos hk] at h
      simp [dictMem, h]
    · simp only [dictDel, if_neg hk, dictMem, Bool.or_eq_true] at h ⊢
      rcases h with h | h
      · exact Or.inl h
      · exact Or.inr (ih h)

theorem dictMem_del_self (s : Store) (k : Json) (h : keysNodup s = true) :
    dictMem (dictDel s k) k = false := by
  induction s with
  | nil => simp [dictDel, dictMem]
  | cons e rest ih =>
    obtain ⟨k1, v1⟩ := e
    simp only [keysNodup, Bool.and_eq_true, Bool.not_eq_true'] at h
    by_cases hk : k1 = k
    · subst hk
      simp [dictDel, h.1]
    · simp only [dictDel, if_neg hk, dictMem, Bool.or_eq_false_iff]
      refine ⟨by simpa [beq_eq_false_iff_ne] using hk, ih h.2⟩

theorem dictGetD_not_mem (s : Store) (k : Json) (d : List Rec) (h : dictMem s k = false) :
    dictGetD s k d = d := by
  induction s with
  | nil => simp [dictGetD]
  | cons e rest ih =>
    obtain ⟨k1, v1⟩ := e
    simp only [dictMem, Bool.or_eq_false_iff, beq_eq_false_iff_ne] at h
    simp [dictGetD, h.1, ih h.2]

theorem hasKey_of_jget :
    ∀ (fields : JsonFields) (key : String) (v : Json),
      jget fields key = some v → hasKey fields key = true
  | JsonFields.nil, key, v, h => by simp [jget] at h
  | JsonFields.cons k v2 rest, key, v, h => by
    by_cases hk : k = key
    · simp [hasKey, hk]
    · simp only [jget, if_neg hk] at h
      simp [hasKey, hk, hasKey_of_jget rest key v h]

/-- Claim C2: a fetch by `u` returns exactly the records pending for
`u` (the partition of `u` followed by the broadcast partition) and
clears them, so a second consecutive fetch by `u` with no intervening
ingest returns the empty sequence; in particular, after exactly one
ingest into the empty store, the first fetch returns that one record
and the second fetch returns the empty sequence. -/
theorem fetch_drain_property (s : Store) (u : String) (fields : JsonFields)
    (now : Int) (m : Json)
    (hnd : keysNodup s = true)
    (hm : jget fields "message" = some m)
    (ht : jget fields "target_users" = none)
    (hu : u ≠ "__broadcast__") :
    (fetch s u).2 = dictGetD s (Json.str u) [] ++ dictGetD s bcKey []
    ∧ dictGetD (fetch s u).1 (Json.str u) [] = []
    ∧ dictMem (fetch s u).1 bcKey = false
    ∧ (fetch (fetch s u).1 u).2 = []
    ∧ (ingest [] (some (Json.obj fields)) now).2.status = 200
    ∧ (fetch (ingest [] (some (Json.obj fields)) now).1 u).2
        = [mkNotification fields now 0]
    ∧ (fetch (fetch (ingest [] (some (Json.obj fields)) now).1 u).1 u).2 = [] := by
  have hbu : bcKey ≠ Json.str u := by
    simp only [bcKey, Ne, Json.str.injEq]
    exact fun he => hu he.symm
  have h2 : dictGetD (fetch s u).1 (Json.str u) [] = [] := by
    simp only [fetch]
    rw [dictGetD_del_ne _ _ _ _ hbu, dictGetD_set_self]
  have h3 : dictMem (fetch s u).1 bcKey = false := by
    simp only [fetch]
    exact dictMem_del_self _ _ (keysNodup_set s _ [] hnd)
  have hk : hasKey fields "message" = true := hasKey_of_jget fields "message" m hm
  have hu2 : ¬("__broadcast__" = u) := fun he => hu he.symm
  have hingest : (ingest [] (some (Json.obj fields)) now).1
      = [(bcKey, [mkNotification fields now 0])] := by
    simp [ingest, pyContains, hk, ht, dictAppend]
  refine ⟨by simp [fetch], h2, h3, ?_, ?_, ?_, ?_⟩
  · have := dictGetD_not_mem (fetch s u).1 bcKey [] h3
    simp only [fetch] at h2 this ⊢
    rw [h2, this]
    simp
  · simp [ingest, pyContains, hk, ht]
  · rw [hingest]
    simp [fetch, dictGetD, bcKey, hu2]
  · rw [hingest]
    simp [fetch, dictGetD, dictSet, dictDel, bcKey, hu2]

theorem fetch_drain_property_witness :
    keysNodup [(Json.str "alice", [JsonFields.nil])] = true
    ∧ jget (JsonFields.ofList [("message", Json.str "x")]) "message" = some (Json.str "x")
    ∧ jget (JsonFields.ofList [("message", Json.str "x")]) "target_users" = none
    ∧ "alice" ≠ "__broadcast__"
    ∧ ((fetch [(Json.str "alice", [JsonFields.nil])] "alice").2
        = dictGetD [(Json.str "alice", [JsonFields.nil])] (Json.str "alice") []
          ++ dictGetD [(Json.str "alice", [JsonFields.nil])] bcKey []
      ∧ dictGetD (fetch [(Json.str "alice", [JsonFields.nil])] "alice").1 (Json.str "alice") [] = []
      ∧ dictMem (fetch [(Json.str "alice", [JsonFields.nil])] "alice").1 bcKey = false
      ∧ (fetch (fetch [(Json.str "alice", [JsonFields.nil])] "alice").1 "alice").2 = []
      ∧ (ingest [] (some (Json.obj (JsonFields.ofList [("message", Json.str "x")]))) 0).2.status = 200
      ∧ (fetch (ingest [] (some (Json.obj (JsonFields.ofList [("message", Json.str "x")]))) 0).1 "alice").2
          = [mkNotification (JsonFields.ofList [("message", Json.str "x")]) 0 0]
      ∧ (fetch (fetch (ingest [] (some (Json.obj (JsonFields.ofList [("message", Json.str "x")]))) 0).1 "alice").1 "alice").2 = []) :=
  ⟨by decide, by decide, by decide, by decide,
   fetch_drain_property [(Json.str "alice", [JsonFields.nil])] "alice"
     (JsonFields.ofList [("message", Json.str "x")]) 0 (Json.str "x")
     (by decide) (by decide) (by decide) (by decide)⟩

/-- Claim C3: a fetch returns the caller's partition followed by the
contents of the reserved broadcast partition, and afterwards the
broadcast partition is deleted; hence records placed in the broadcast
partition are delivered to the first fetch (by any user) after they
were stored and are not repeated for subsequent new users — a user with
no partition of their own fetching right after any other fetch
receives the empty sequence. -/
theorem broadcast_one_shot (s : Store) (u u2 : String)
    (hnd : keysNodup s = true)
    (hmem : dictMem s (Json.str u2) = false)
    (hne : u2 ≠ u) :
    (fetch s u).2 = dictGetD s (Json.str u) [] ++ dictGetD s bcKey []
    ∧ dictMem (fetch s u).1 bcKey = false
    ∧ (fetch (fetch s u).1 u2).2 = [] := by
  have hbc : dictMem (fetch s u).1 bcKey = false := by
    simp only [fetch]
    exact dictMem_del_self _ _ (keysNodup_set s _ [] hnd)
  refine ⟨by simp [fetch], hbc, ?_⟩
  have hmem2 : dictMem (fetch s u).1 (Json.str u2) = false := by
    cases hc : dictMem (fetch s u).1 (Json.str u2) with
    | false => rfl
    | true =>
      exfalso
      simp only [fetch] at hc
      have := dictMem_del_imp _ _ _ hc
      rw [dictMem_set] at this
      simp only [Bool.or_eq_true, beq_iff_eq, Json.str.injEq] at this
      rcases this with h | h
      · exact hne h.symm
      · rw [hmem] at h
        exact Bool.false_ne_true h
  have hga := dictGetD_not_mem _ _ [] hmem2
  have hgb := dictGetD_not_mem _ _ [] hbc
  simp only [fetch] at hga hgb ⊢
  rw [hga, hgb]
  simp

theorem broadcast_one_shot_witness :
    keysNodup [(bcKey, [JsonFields.nil])] = true
    ∧ dictMem [(bcKey, [JsonFields.nil])] (Json.str "bob") = false
    ∧ "bob" ≠ "alice"
    ∧ ((fetch [(bcKey, [JsonFields.nil])] "alice").2
        = dictGetD [(bcKey, [JsonFields.nil])] (Json.str "alice") []
          ++ dictGetD [(bcKey, [JsonFields.nil])] bcKey []
      ∧ dictMem (fetch [(bcKey, [JsonFields.nil])] "alice").1 bcKey = false
      ∧ (fetch (fetch [(bcKey, [JsonFields.nil])] "alice").1 "bob").2 = []) :=
  ⟨by decide, by decide, by decide,
   broadcast_one_shot [(bcKey, [JsonFields.nil])] "alice" "bob"
     (by decide) (by decide) (by decide)⟩

theorem toList_ofList (l : List Json) : (JsonList.ofList l).toList = l := by
  induction l with
  | nil => simp [JsonList.ofList, JsonList.toList]
  | cons x xs ih => simp [JsonList.ofList, JsonList.toList, ih]

/-- Multiplicity of a key in a target-user list. -/
def countKey (k : Json) : List Json → Nat
  | [] => 0
  | u :: rest => (if u = k then 1 else 0) + countKey k rest

theorem dictGetD_dictAppend (s : Store) (k k2 : Json) (r : Rec) :
    dictGetD (dictAppend s k r) k2 []
      = dictGetD s k2 [] ++ (if k = k2 then [r] else []) := by
  induction s with
  | nil =>
    by_cases hk : k = k2
    · simp [dictAppend, dictGetD, hk]
    · simp [dictAppend, dictGetD, hk]
  | cons e rest ih =>
    obtain ⟨k1, v1⟩ := e
    by_cases h1 : k1 = k
    · subst h1
      by_cases h2 : k1 = k2
      · subst h2
        simp [dictAppend, dictGetD]
      · simp [dictAppend, dictGetD, h2]
    · by_cases h2 : k1 = k2
      · subst h2
        have h3 : ¬(k = k1) := fun he => h1 he.symm
        simp [dictAppend, dictGetD, h1, h3]
      · simp [dictAppend, dictGetD, h1, h2, ih]

theorem appendUsersLoop_str (names : List String) :
    ∀ (s : Store) (r : Rec) (k : Json),
      (appendUsersLoop s (names.map Json.str) r).2 = none
      ∧ dictGetD (appendUsersLoop s (names.map Json.str) r).1 k []
          = dictGetD s k [] ++ List.replicate (countKey k (names.map Json.str)) r := by
  induction names with
  | nil => intro s r k; simp [appendUsersLoop, countKey]
  | cons u rest ih =>
    intro s r k
    have hih := ih (dictAppend s (Json.str u) r) r k
    have hstep : appendUsersLoop s (List.map Json.str (u :: rest)) r
        = appendUsersLoop (dictAppend s (Json.str u) r) (List.map Json.str rest) r := by
      simp [appendUsersLoop, hashable]
    rw [hstep]
    refine ⟨hih.1, ?_⟩
    rw [hih.2, dictGetD_dictAppend]
    simp only [List.map_cons, countKey]
    by_cases hk : Json.str u = k
    · simp [hk, Nat.add_comm, List.replicate_succ]
    · simp [hk]

theorem map_append_getD (s : Store) (k : Json) (n : Rec) (h : dictMem s k = true) :
    dictGetD (s.map (fun e => (e.1, e.2 ++ [n]))) k [] = dictGetD s k [] ++ [n] := by
  induction s with
  | nil => simp [dictMem] at h
  | cons e rest ih =>
    obtain ⟨k1, v1⟩ := e
    by_cases hk : k1 = k
    · simp [dictGetD, hk]
    · simp only [dictMem, Bool.or_eq_true, beq_iff_eq] at h
      rcases h with h | h
      · exact absurd h hk
      · simp [dictGetD, hk, ih h]

/-- Claim C4 counterexample: for the valid payload
`{"message": "hi", "target_users": []}` the response resolves the
target set to the string `"all"`, not to the (empty) list of named
users that was supplied — the handler tests Python truthiness, and an
empty list is falsy. -/
theorem ingest_empty_targets_resolved_as_all :
    (ingest [] (some (Json.obj (JsonFields.ofList
        [("message", Json.str "hi"), ("target_users", Json.arr JsonList.nil)]))) 0).2.body
      = Json.obj (JsonFields.ofList
          [("success", Json.bool true),
           ("notification_id", Json.str (notifId 0 0)),
           ("target_users", Json.str "all")])
    ∧ Json.str "all" ≠ Json.arr JsonList.nil := by
  constructor
  · rfl
  · decide

/-- Claim C4 (amended): for a valid ingest payload (a JSON object with
`message`): if `target_users` is absent or null, the record is appended
to every partition of the store, or to the reserved `__broadcast__`
partition if the store is empty, and the response resolves the target
set to `"all"`; if `target_users` is a list of names, the record is
appended to exactly the named partitions (with multiplicity), and the
response carries the list of named users when that list is nonempty —
but resolves an empty list to `"all"` as well, since the handler tests
Python truthiness rather than presence. -/
theorem ingest_target_dispatch (s : Store) (fields : JsonFields) (now : Int) (m : Json)
    (hm : jget fields "message" = some m) :
    ((jget fields "target_users" = none ∨ jget fields "target_users" = some Json.null) →
      (s = [] → (ingest s (some (Json.obj fields)) now).1
          = [(bcKey, [mkNotification fields now 0])])
      ∧ (s ≠ [] → (ingest s (some (Json.obj fields)) now).1.map Prod.fst = s.map Prod.fst)
      ∧ (∀ k, dictMem s k = true →
          dictGetD (ingest s (some (Json.obj fields)) now).1 k []
            = dictGetD s k [] ++ [mkNotification fields now s.length])
      ∧ (ingest s (some (Json.obj fields)) now).2
          = ⟨200, Json.obj (JsonFields.ofList
              [("success", Json.bool true),
               ("notification_id", Json.str (notifId now s.length)),
               ("target_users", Json.str "all")])⟩)
    ∧ (∀ names : List String,
        jget fields "target_users" = some (Json.arr (JsonList.ofList (names.map Json.str))) →
        (∀ k, dictGetD (ingest s (some (Json.obj fields)) now).1 k []
            = dictGetD s k []
              ++ List.replicate (countKey k (names.map Json.str)) (mkNotification fields now s.length))
        ∧ (ingest s (some (Json.obj fields)) now).2
            = ⟨200, Json.obj (JsonFields.ofList
                [("success", Json.bool true),
                 ("notification_id", Json.str (notifId now s.length)),
                 ("target_users",
                   if names.isEmpty then Json.str "all"
                   else Json.arr (JsonList.ofList (names.map Json.str)))])⟩) := by
  have hk : hasKey fields "message" = true := hasKey_of_jget fields "message" m hm
  constructor
  · intro htu
    have htu2 : (jget fields "target_users").getD Json.null = Json.null := by
      rcases htu with h | h <;> simp [h]
    refine ⟨?_, ?_, ?_, ?_⟩
    · intro hs
      subst hs
      simp [ingest, pyContains, hk, htu2, dictAppend]
    · intro hs
      cases s with
      | nil => exact absurd rfl hs
      | cons e rest => simp [ingest, pyContains, hk, htu2]
    · intro k hkm
      cases s with
      | nil => simp [dictMem] at hkm
      | cons e rest =>
        have hmap := map_append_getD (e :: rest)
          k (mkNotification fields now (e :: rest).length) hkm
        simp only [ingest, pyContains, hk, htu2]
        simp only [List.length_cons] at hmap
        simpa using hmap
    · cases s with
      | nil => simp [ingest, pyContains, hk, htu2, pyTruthy]
      | cons e rest => simp [ingest, pyContains, hk, htu2, pyTruthy]
  · intro names htu
    have hloop := appendUsersLoop_str names s (mkNotification fields now s.length)
    have harr : (Json.arr (JsonList.ofList (names.map Json.str))) ≠ Json.null := by
      simp
    constructor
    · intro k
      have h2 := (hloop k).2
      cases hal : appendUsersLoop s (names.map Json.str) (mkNotification fields now s.length) with
      | mk s1 o =>
        have ho : o = none := by
          have := (hloop k).1
          rw [hal] at this
          exact this
        subst ho
        rw [hal] at h2
        simp only [ingest, pyContains, hk, htu, Option.getD_some, if_neg harr,
          pyIter, toList_ofList, hal]
        exact h2
    · cases hal : appendUsersLoop s (names.map Json.str) (mkNotification fields now s.length) with
      | mk s1 o =>
        have ho : o = none := by
          have := (hloop bcKey).1
          rw [hal] at this
          exact this
        subst ho
        simp only [ingest, pyContains, hk, htu, Option.getD_some, if_neg harr,
          pyIter, toList_ofList, hal]
        cases names with
        | nil => simp [pyTruthy, JsonList.ofList, JsonList.toList]
        | cons a as => simp [pyTruthy, JsonList.ofList, JsonList.toList]

theorem ingest_target_dispatch_witness :
    jget (JsonFields.ofList
        [("message", Json.str "m"),
         ("target_users", Json.arr (JsonList.ofList (["alice"].map Json.str)))]) "message"
      = some (Json.str "m")
    ∧ jget (JsonFields.ofList
        [("message", Json.str "m"),
         ("target_users", Json.arr (JsonList.ofList (["alice"].map Json.str)))]) "target_users"
      = some (Json.arr (JsonList.ofList (["alice"].map Json.str)))
    ∧ dictGetD (ingest [(Json.str "alice", [])] (some (Json.obj (JsonFields.ofList
        [("message", Json.str "m"),
         ("target_users", Json.arr (JsonList.ofList (["alice"].map Json.str)))]))) 0).1
        (Json.str "alice") []
      = dictGetD [(Json.str "alice", [])] (Json.str "alice") []
        ++ List.replicate (countKey (Json.str "alice") (["alice"].map Json.str))
            (mkNotification (JsonFields.ofList
              [("message", Json.str "m"),
               ("target_users", Json.arr (JsonList.ofList (["alice"].map Json.str)))]) 0 1) :=
  ⟨by decide, by decide,
   (((ingest_target_dispatch [(Json.str "alice", [])]
       (JsonFields.ofList
         [("message", Json.str "m"),
          ("target_users", Json.arr (JsonList.ofList (["alice"].map Json.str)))])
       0 (Json.str "m") (by decide)).2 ["alice"] (by decide)).1 (Json.str "alice"))⟩

/-- Claim C5: for a valid payload containing a `message` (broadcast:
`target_users` absent), ingest succeeds with status 200 and a freshly
generated id beginning with the fixed prefix `"notif_"`, and the next
fetch by a (real) user returns exactly that record; when the payload
omits `type`, `autoClose` and `actions`, the record carries the
defaults `type="info"`, `autoClose=5000`, `actions=[]`. -/
theorem ingest_defaults_round_trip (fields : JsonFields) (now : Int) (u : String) (m : Json)
    (hm : jget fields "message" = some m)
    (htu : jget fields "target_users" = none)
    (hu : u ≠ "__broadcast__") :
    (ingest [] (some (Json.obj fields)) now).2.status = 200
    ∧ (∃ suffix, notifId now 0 = "notif_" ++ suffix)
    ∧ (fetch (ingest [] (some (Json.obj fields)) now).1 u).2 = [mkNotification fields now 0]
    ∧ (jget fields "type" = none → jget fields "autoClose" = none →
        jget fields "actions" = none →
        mkNotification fields now 0
          = JsonFields.ofList
              [("id", Json.str (notifId now 0)),
               ("message", m),
               ("type", Json.str "info"),
               ("autoClose", Json.num 5000),
               ("createdAt", Json.num now),
               ("actions", Json.arr JsonList.nil)]) := by
  have hk : hasKey fields "message" = true := hasKey_of_jget fields "message" m hm
  have hu2 : ¬("__broadcast__" = u) := fun he => hu he.symm
  have hingest : (ingest [] (some (Json.obj fields)) now).1
      = [(bcKey, [mkNotification fields now 0])] := by
    simp [ingest, pyContains, hk, htu, dictAppend]
  refine ⟨?_, ?_, ?_, ?_⟩
  · simp [ingest, pyContains, hk, htu]
  · exact ⟨toString now ++ "_" ++ toString 0, by simp [notifId, String.append_assoc]⟩
  · rw [hingest]
    simp [fetch, dictGetD, bcKey, hu2]
  · intro h1 h2 h3
    simp [mkNotification, h1, h2, h3, hm]

theorem ingest_defaults_round_trip_witness :
    jget (JsonFields.ofList [("message", Json.str "x")]) "message" = some (Json.str "x")
    ∧ jget (JsonFields.ofList [("message", Json.str "x")]) "target_users" = none
    ∧ "alice" ≠ "__broadcast__"
    ∧ ((ingest [] (some (Json.obj (JsonFields.ofList [("message", Json.str "x")]))) 0).2.status = 200
      ∧ (∃ suffix, notifId 0 0 = "notif_" ++ suffix)
      ∧ (fetch (ingest [] (some (Json.obj (JsonFields.ofList [("message", Json.str "x")]))) 0).1 "alice").2
          = [mkNotification (JsonFields.ofList [("message", Json.str "x")]) 0 0]
      ∧ (jget (JsonFields.ofList [("message", Json.str "x")]) "type" = none →
          jget (JsonFields.ofList [("message", Json.str "x")]) "autoClose" = none →
          jget (JsonFields.ofList [("message", Json.str "x")]) "actions" = none →
          mkNotification (JsonFields.ofList [("message", Json.str "x")]) 0 0
            = JsonFields.ofList
                [("id", Json.str (notifId 0 0)),
                 ("message", Json.str "x"),
                 ("type", Json.str "info"),
                 ("autoClose", Json.num 5000),
                 ("createdAt", Json.num 0),
                 ("actions", Json.arr JsonList.nil)])) :=
  ⟨by decide, by decide, by decide,
   ingest_defaults_round_trip (JsonFields.ofList [("message", Json.str "x")]) 0 "alice"
     (Json.str "x") (by decide) (by decide) (by decide)⟩

theorem ingest_ok_true_status (s : Store) (v : Json) (now : Int)
    (h : pyContains "message" v = Except.ok true) :
    (ingest s (some v) now).2.status = 200 ∨ (ingest s (some v) now).2.status = 500 := by
  cases v with
  | obj fields =>
    simp only [ingest, h]
    by_cases ht : (jget fields "target_users").getD Json.null = Json.null
    · simp [ht]
    · simp only [if_neg ht]
      cases hit : pyIter ((jget fields "target_users").getD Json.null) with
      | error e => simp
      | ok users =>
        cases hal : appendUsersLoop s users (mkNotification fields now s.length) with
        | mk s1 o => cases o <;> simp [hal]
  | null => simp [pyContains] at h
  | bool b2 => simp [pyContains] at h
  | num n2 => simp [pyContains] at h
  | str s2 => simp [ingest, h]
  | arr elems => simp [ingest, h]

/-- Claim C6 counterexample: the request body `5` is valid JSON with no
`message` key, yet the handler responds 500 — Python's membership test
`'message' in payload` raises `TypeError` on an integer, which the
catch-all turns into a 500 — not the claimed 400; the store is
untouched. -/
theorem ingest_num_body_500 :
    (ingest [] (some (Json.num 5)) 0).2.status = 500
    ∧ (ingest [] (some (Json.num 5)) 0).1 = [] := by decide

/-- Claim C6 (amended): ingest responds 400 with `Invalid JSON payload`
iff the body is not valid JSON; it responds 400 with
`Missing 'message' field` iff the body is valid JSON on which Python's
membership test for `"message"` succeeds and returns false (a JSON
object lacking the key, an array not containing the string, or a
string without the substring); on a valid JSON body that is a number,
boolean or null the membership test itself raises, so the handler
responds 500 (with the stringified exception), not 400; and whenever a
400 is returned the store is unchanged. -/
theorem ingest_400_characterization (s : Store) (b : Option Json) (now : Int) :
    ((ingest s b now).2
        = ⟨400, Json.obj (JsonFields.ofList [("error", Json.str "Invalid JSON payload")])⟩
      ↔ b = none)
    ∧ ((ingest s b now).2
        = ⟨400, Json.obj (JsonFields.ofList [("error", Json.str "Missing \x27message\x27 field")])⟩
      ↔ ∃ v, b = some v ∧ pyContains "message" v = Except.ok false)
    ∧ (∀ v e, b = some v → pyContains "message" v = Except.error e →
        (ingest s b now).2.status = 500)
    ∧ ((ingest s b now).2.status = 400 → (ingest s b now).1 = s) := by
  cases b with
  | none =>
    refine ⟨iff_of_true rfl rfl, ?_, ?_, fun _ => rfl⟩
    · refine iff_of_false ?_ ?_
      · intro h
        have hb := congrArg Response.body h
        simp only [ingest] at hb
        exact absurd hb (by decide)
      · rintro ⟨v, hv, _⟩
        cases hv
    · intro v e hv
      simp at hv
  | some v =>
    cases hpc : pyContains "message" v with
    | error e =>
      refine ⟨?_, ?_, ?_, ?_⟩
      · simp [ingest, hpc]
      · simp [ingest, hpc]
      · intro v2 e2 hv2 he2
        simp [ingest, hpc]
      · intro h400
        simp [ingest, hpc] at h400
    | ok o =>
      cases o with
      | false =>
        refine ⟨?_, ?_, ?_, fun _ => ?_⟩
        · refine iff_of_false ?_ (by simp)
          intro h
          have hb := congrArg Response.body h
          simp only [ingest, hpc] at hb
          exact absurd hb (by decide)
        · constructor
          · intro _
            exact ⟨v, rfl, hpc⟩
          · intro _
            simp [ingest, hpc]
        · intro v2 e2 hv2 he2
          obtain rfl : v = v2 := by injection hv2
          rw [hpc] at he2
          cases he2
        · simp [ingest, hpc]
      | true =>
        have hst := ingest_ok_true_status s v now hpc
        have hne400 : (ingest s (some v) now).2.status ≠ 400 := by
          rcases hst with h | h <;> omega
        refine ⟨?_, ?_, ?_, fun h400 => absurd h400 hne400⟩
        · refine iff_of_false ?_ (by simp)
          intro h
          exact hne400 (by rw [h])
        · refine iff_of_false ?_ ?_
          · intro h
            exact hne400 (by rw [h])
          · rintro ⟨v2, hv2, hpf⟩
            obtain rfl : v = v2 := by injection hv2
            rw [hpc] at hpf
            cases hpf
        · intro v2 e2 hv2 he2
          obtain rfl : v = v2 := by injection hv2
          rw [hpc] at he2
          cases he2

theorem ingest_400_characterization_witness :
    (ingest [] none 0).2
      = ⟨400, Json.obj (JsonFields.ofList [("error", Json.str "Invalid JSON payload")])⟩ :=
  (ingest_400_characterization [] none 0).1.mpr rfl

/-- Claim C7 (code observation): the ingest handler builds the stored
record from the fixed key set `id, message, type, autoClose, createdAt,
actions` (routes.py lines 48-55) and never copies the payload's `data`
field, so a payload carrying `data` is stored — and fetched — as a
record with no `data` key, although the repository's CLI documents
`data` as "arbitrary data to attach to the notification" and the
local-mode CLI variant does include it. -/
theorem ingest_drops_data_field :
    jget (mkNotification (JsonFields.ofList
        [("message", Json.str "hi"), ("data", Json.str "v")]) 0 0) "data" = none
    ∧ (fetch (ingest [] (some (Json.obj (JsonFields.ofList
        [("message", Json.str "hi"), ("data", Json.str "v")]))) 0).1 "alice").2
      = [mkNotification (JsonFields.ofList
          [("message", Json.str "hi"), ("data", Json.str "v")]) 0 0] := by
  constructor
  · rfl
  · rfl

/-- Claim C8: a payload whose `autoClose` field is the boolean `false`
round-trips through ingest and fetch with `autoClose` still the
boolean `false`, not the default integer 5000 (`payload.get` only
substitutes the default when the key is absent). -/
theorem autoclose_false_round_trip (fields : JsonFields) (now : Int) (u : String) (m : Json)
    (hm : jget fields "message" = some m)
    (hac : jget fields "autoClose" = some (Json.bool false))
    (htu : jget fields "target_users" = none)
    (hu : u ≠ "__broadcast__") :
    (fetch (ingest [] (some (Json.obj fields)) now).1 u).2 = [mkNotification fields now 0]
    ∧ jget (mkNotification fields now 0) "autoClose" = some (Json.bool false) := by
  have hk : hasKey fields "message" = true := hasKey_of_jget fields "message" m hm
  have hu2 : ¬("__broadcast__" = u) := fun he => hu he.symm
  have hingest : (ingest [] (some (Json.obj fields)) now).1
      = [(bcKey, [mkNotification fields now 0])] := by
    simp [ingest, pyContains, hk, htu, dictAppend]
  constructor
  · rw [hingest]
    simp [fetch, dictGetD, bcKey, hu2]
  · simp [mkNotification, hac, JsonFields.ofList, jget]

theorem autoclose_false_round_trip_witness :
    jget (JsonFields.ofList [("message", Json.str "x"), ("autoClose", Json.bool false)]) "message"
      = some (Json.str "x")
    ∧ jget (JsonFields.ofList [("message", Json.str "x"), ("autoClose", Json.bool false)]) "autoClose"
      = some (Json.bool false)
    ∧ jget (JsonFields.ofList [("message", Json.str "x"), ("autoClose", Json.bool false)]) "target_users"
      = none
    ∧ "alice" ≠ "__broadcast__"
    ∧ ((fetch (ingest [] (some (Json.obj (JsonFields.ofList
          [("message", Json.str "x"), ("autoClose", Json.bool false)]))) 0).1 "alice").2
        = [mkNotification (JsonFields.ofList
            [("message", Json.str "x"), ("autoClose", Json.bool false)]) 0 0]
      ∧ jget (mkNotification (JsonFields.ofList
          [("message", Json.str "x"), ("autoClose", Json.bool false)]) 0 0) "autoClose"
        = some (Json.bool false)) :=
  ⟨by decide, by decide, by decide, by decide,
   autoclose_false_round_trip
     (JsonFields.ofList [("message", Json.str "x"), ("autoClose", Json.bool false)])
     0 "alice" (Json.str "x") (by decide) (by decide) (by decide) (by decide)⟩

/-- Claim C9 (code observation): `send_notification_local` never
appends to the buffer and never returns `{"success": true, ...}` — the
`_notification_store` it imports from `routes.py` is a dict
(`defaultdict(list)`), which has no `append` method, so the call
raises `AttributeError` on every input. -/
theorem send_notification_local_raises :
    send_notification_local [] "hello" "info" (Json.num 5000) none none 0
      = Except.error
          "AttributeError: \x27collections.defaultdict\x27 object has no attribute \x27append\x27" :=
  rfl

/-- Claim C10: an ingest whose `target_users` is the empty list leaves
the store unchanged — the record is appended to no partition, so no
fetch ever delivers it — yet the response is 200 with `success: true`
and `target_users` resolved to the string `"all"`, because the handler
tests Python truthiness of the (falsy) empty list. -/
theorem empty_target_list_drops_record (s : Store) (fields : JsonFields) (now : Int) (m : Json)
    (hm : jget fields "message" = some m)
    (htu : jget fields "target_users" = some (Json.arr JsonList.nil)) :
    (ingest s (some (Json.obj fields)) now).1 = s
    ∧ (ingest s (some (Json.obj fields)) now).2
        = ⟨200, Json.obj (JsonFields.ofList
            [("success", Json.bool true),
             ("notification_id", Json.str (notifId now s.length)),
             ("target_users", Json.str "all")])⟩ := by
  have hk : hasKey fields "message" = true := hasKey_of_jget fields "message" m hm
  constructor <;>
    simp [ingest, pyContains, hk, htu, pyIter, JsonList.toList, appendUsersLoop, pyTruthy]

theorem empty_target_list_drops_record_witness :
    jget (JsonFields.ofList
        [("message", Json.str "x"), ("target_users", Json.arr JsonList.nil)]) "message"
      = some (Json.str "x")
    ∧ jget (JsonFields.ofList
        [("message", Json.str "x"), ("target_users", Json.arr JsonList.nil)]) "target_users"
      = some (Json.arr JsonList.nil)
    ∧ ((ingest [(Json.str "alice", [])] (some (Json.obj (JsonFields.ofList
          [("message", Json.str "x"), ("target_users", Json.arr JsonList.nil)]))) 0).1
        = [(Json.str "alice", [])]
      ∧ (ingest [(Json.str "alice", [])] (some (Json.obj (JsonFields.ofList
          [("message", Json.str "x"), ("target_users", Json.arr JsonList.nil)]))) 0).2
        = ⟨200, Json.obj (JsonFields.ofList
            [("success", Json.bool true),
             ("notification_id", Json.str (notifId 0 1)),
             ("target_users", Json.str "all")])⟩) :=
  ⟨by decide, by decide,
   empty_target_list_drops_record [(Json.str "alice", [])]
     (JsonFields.ofList [("message", Json.str "x"), ("target_users", Json.arr JsonList.nil)])
     0 (Json.str "x") (by decide) (by decide)⟩
